import Mathlib

/-!
Verification of the vanity-address search tool (src/main.go).

Bytes and characters are modelled as natural numbers (their ASCII codes);
Go byte slices and strings become lists of naturals.  The external
go-ethereum library (crypto, common.Address.Hex) is outside this
repository and is treated as an oracle, exactly as the spec prescribes:
where a definition needs the checksummed encoding produced by
common.Address.Hex, that encoding is passed in as an explicit function
parameter named hexF.
-/

/-- One lowercase hex digit, as produced by the alphabet
"0123456789abcdef" that package encoding/hex uses:
48 is the code of the digit zero, 97 the code of lowercase a. -/
def hexDigit (n : Nat) : Nat := if n < 10 then 48 + n else 87 + n

/-- Embeds hex.AppendEncode(buf, a[:]) from src/main.go line 21: the
lowercase hex encoding of the address bytes, appended to buf.  main.go
always passes a buffer of length zero (line 184), so the result is the
plain 40-character encoding of a 20-byte address. -/
def hexAppendEncode (buf a : List Nat) : List Nat :=
  buf ++ a.flatMap (fun b => [hexDigit (b / 16), hexDigit (b % 16)])

/-- Embeds the two index loops shared verbatim by insensitiveCmp
(src/main.go lines 26-36) and sensitiveCmp (lines 45-54): compare the
bytes of pat against the bytes of hexAddr starting at index off,
returning false at the first mismatch.  An out-of-range index, which
would panic in Go, is modelled as none. -/
def cmpLoop (pat hexAddr : List Nat) (off : Nat) : Option Bool :=
  match pat with
  | [] => some true
  | c :: rest =>
    match hexAddr[off]? with
    | none => none
    | some b => if c = b then cmpLoop rest hexAddr (off + 1) else some false

/-- Embeds the common body of insensitiveCmp and sensitiveCmp
(src/main.go lines 20-56): the length guard at lines 22-24 and 42-44,
then the prefix loop from index 0 and the suffix loop from index
len(hexAddr)-len(suffix). -/
def cmpBody (hexAddr pre suf : List Nat) : Option Bool :=
  if hexAddr.length < pre.length + suf.length then some false
  else
    match cmpLoop pre hexAddr 0 with
    | none => none
    | some false => some false
    | some true => cmpLoop suf hexAddr (hexAddr.length - suf.length)

/-- Embeds insensitiveCmp (src/main.go lines 20-38): the address is
encoded with hex.AppendEncode into the scratch buffer buf, then the
pattern is compared against that encoding. -/
def insensitiveCmp (a pre suf buf : List Nat) : Option Bool :=
  cmpBody (hexAppendEncode buf a) pre suf

/-- Embeds sensitiveCmp (src/main.go lines 40-56).  The encoded address
is a.Hex(), the checksummed hex string with the 0x marker, computed by
the external go-ethereum library; it is modelled by the parameter hexF
applied to the address bytes. -/
def sensitiveCmp (hexF : List Nat → List Nat) (a pre suf : List Nat) : Option Bool :=
  cmpBody (hexF a) pre suf

/-- Proof helper: cmpLoop pat h off viewed as a comparison of pat with
the list h.drop off, with the Go panic again modelled as none. -/
def cmpZip : List Nat → List Nat → Option Bool
  | [], _ => some true
  | _ :: _, [] => none
  | c :: rest, b :: hs => if c = b then cmpZip rest hs else some false

/-- Embeds bytes.ToLower restricted to a single byte (src/main.go lines
146-147 lowercase the pattern with bytes.ToLower): an ASCII uppercase
letter, code 65 to 90, is shifted to its lowercase form. -/
def toLowerByte (b : Nat) : Nat := if 65 ≤ b ∧ b ≤ 90 then b + 32 else b

/-- Embeds one successful call of the closure returned by fastRand
(src/main.go lines 67-80) for a buffer of length cap, abstracting away
the random bytes themselves: given the saved cursor n, the call refills
the buffer and resets the cursor when n == 0 or n > cap - 32, then reads
the 32-byte window at the cursor and advances the cursor by one.  The
result is the triple (index of the 32-byte read, whether a refill
happened, new cursor).  main.go calls fastRand(n, make([]byte, n)), so
the initial cursor equals cap. -/
def fastRandCall (cap n : Nat) : Nat × Bool × Nat :=
  if n = 0 ∨ cap - 32 < n then (0, true, 1) else (n, false, n + 1)

/-- Cursor of the fastRand closure after k successful calls, starting
from the initial cursor cap that main.go passes at line 175. -/
def fastRandCursor (cap : Nat) : Nat → Nat
  | 0 => cap
  | k + 1 => (fastRandCall cap (fastRandCursor cap k)).2.2

/-- Embeds one call of the fastRand closure (src/main.go lines 67-80)
including the error path of rand.Read: the Go code first sets n = 0 and
only then returns the error, so a failed refill leaves the cursor at 0.
The result is (index of the 32-byte read if any, new cursor); none
models the early error return, before any key bytes are produced. -/
def fastRandCallE (cap n : Nat) (refillOk : Bool) : Option Nat × Nat :=
  if n = 0 ∨ cap - 32 < n then
    if refillOk then (some 0, 1) else (none, 0)
  else (some n, n + 1)

/-- The three error values of src/main.go lines 83-87. -/
inductive ValidationError
  | errTooLongInvalid
  | errInvalid
  | errTooLong
deriving DecidableEq

/-- Embeds the charset loop of isValidSubstring (src/main.go lines
93-101): errInvalid at the first byte outside the ranges 0-9, a-f, A-F.
Go iterates runes, but byte-wise and rune-wise scanning accept exactly
the same strings, because every byte of a multi-byte rune is itself
outside the three ASCII hex ranges. -/
def isHexByte (r : Nat) : Bool :=
  (r ≤ 57 && 48 ≤ r) || (r ≤ 102 && 97 ≤ r) || (r ≤ 70 && 65 ≤ r)

/-- Scanning part of isValidSubstring: the for loop at src/main.go lines
93-101. -/
def scanHex : List Nat → Option ValidationError
  | [] => none
  | r :: rest => if isHexByte r then scanHex rest else some ValidationError.errInvalid

/-- Embeds isValidSubstring (src/main.go lines 89-107): length above 32
fails first, then the charset scan, then the soft length-above-5
warning. -/
def isValidSubstring (s : List Nat) : Option ValidationError :=
  if 32 < s.length then some ValidationError.errTooLongInvalid
  else
    match scanHex s with
    | some e => some e
    | none =>
      if 5 < s.length then some ValidationError.errTooLong else none

inductive GateOutcome
  | abort
  | proceed
deriving DecidableEq

/-- Embeds the validation policy of main (src/main.go lines 131-139):
log.Fatalln aborts the run; an error other than errTooLong always
aborts, errTooLong aborts only when the -l override is absent and the
-t timeout is zero.  The argument of isValidSubstring is the
concatenation of the two flags, exactly as at line 132. -/
def validationGate (pre suf : List Nat) (longOk : Bool) (timeOut : Int) : GateOutcome :=
  match isValidSubstring (pre ++ suf) with
  | some e =>
    if e ≠ ValidationError.errTooLong then GateOutcome.abort
    else if longOk = false ∧ timeOut = 0 then GateOutcome.abort
    else GateOutcome.proceed
  | none => GateOutcome.proceed

/-- The key-generation strategy a worker is given (src/main.go lines
165-176): crypto.GenerateKey when -f is absent, otherwise the fastRand
closure over a freshly allocated buffer of the recorded capacity. -/
inductive KeyStrategy
  | secure
  | buffered (cap : Nat)
deriving DecidableEq

/-- Embeds the strategy selection of src/main.go lines 165-176.  The
suffix flag and the timeout flag are passed in because the claim under
test mentions them, but the code consults only len(*prefix): the buffer
capacity is 1 MiB when the prefix alone is longer than 5 bytes and
4 KiB otherwise. -/
def workerKeyStrategy (useFast : Bool) (pre _suf : List Nat) (_timeOut : Int) : KeyStrategy :=
  if useFast = false then KeyStrategy.secure
  else if 5 < pre.length then KeyStrategy.buffered (1 <<< 20)
  else KeyStrategy.buffered (4 <<< 10)

/-- Outcome of one call of the key function k inside the worker loop
(src/main.go lines 186-192): either a private key, or the error that
crypto.ToECDSA reports when the sampled 32 bytes are not a valid
scalar.  Keys are abstract naturals. -/
inductive KeyOutcome
  | gotKey (pk : Nat)
  | keyErr
deriving DecidableEq

/-- What one iteration of the worker loop does next. -/
inductive WorkerAction
  | continueLoop
  | emitResult (pk : Nat)
  | fatalExit
deriving DecidableEq

/-- Embeds one iteration of the worker loop (src/main.go lines 186-193):
on an error from k() the code calls log.Fatalln, which terminates the
whole process; otherwise the derived address is matched and the result
is sent on a match.  matchRes abstracts cmp(res.addr, bPref, bSuf, buf)
together with the external address derivation. -/
def workerLoopIter (k : KeyOutcome) (matchRes : Bool) : WorkerAction :=
  match k with
  | KeyOutcome.keyErr => WorkerAction.fatalExit
  | KeyOutcome.gotKey pk =>
    if matchRes then WorkerAction.emitResult pk else WorkerAction.continueLoop

/-- The event that wins the final select (src/main.go lines 197-209):
either some worker delivers a result on ch, or the timeout channel
fires first. -/
inductive RaceEvent
  | workerResult (pk addr : Nat)
  | deadlineFired
deriving DecidableEq

/-- How the process ends after the select. -/
inductive CoordOutcome
  | committed (pk addr : Nat)
  | persistFailed (addr : Nat)
  | timedOutFailure
deriving DecidableEq

/-- Embeds the select of src/main.go lines 197-209.  In the result
branch the address is printed and crypto.SaveECDSA is invoked (its
success is the external persistOk); in the timeout branch log.Fatalln
reports the distinct timeout error.  The second component records
whether the persistence step (SaveECDSA) was invoked at all. -/
def coordinate (ev : RaceEvent) (persistOk : Bool) : CoordOutcome × Bool :=
  match ev with
  | RaceEvent.workerResult pk addr =>
    (if persistOk then CoordOutcome.committed pk addr else CoordOutcome.persistFailed addr, true)
  | RaceEvent.deadlineFired => (CoordOutcome.timedOutFailure, false)

theorem hget_drop (h : List Nat) : ∀ off : Nat, h[off]? = (h.drop off).head? := by
  induction h with
  | nil => intro off; cases off <;> rfl
  | cons x t ih =>
    intro off
    cases off with
    | zero => rw [List.getElem?_cons_zero, List.drop_zero]; rfl
    | succ n => rw [List.getElem?_cons_succ, List.drop_succ_cons, ih n]

theorem hdrop_succ (h : List Nat) : ∀ off : Nat, h.drop (off + 1) = (h.drop off).tail := by
  induction h with
  | nil => intro off; simp
  | cons x t ih =>
    intro off
    cases off with
    | zero => rfl
    | succ n => rw [List.drop_succ_cons, List.drop_succ_cons, ih n]

theorem cmpLoop_eq_zip (pat : List Nat) : ∀ (h : List Nat) (off : Nat),
    cmpLoop pat h off = cmpZip pat (h.drop off) := by
  induction pat with
  | nil => intro h off; rfl
  | cons c rest ih =>
    intro h off
    cases hd : h.drop off with
    | nil =>
      have h1 : h[off]? = none := by rw [hget_drop, hd]; rfl
      simp [cmpLoop, cmpZip, h1]
    | cons b hs =>
      have h1 : h[off]? = some b := by rw [hget_drop, hd]; rfl
      have h2 : h.drop (off + 1) = hs := by rw [hdrop_succ, hd]; rfl
      simp only [cmpLoop, cmpZip, h1, ih h (off + 1), h2]

theorem cmpZip_eq (pat : List Nat) : ∀ l : List Nat, pat.length ≤ l.length →
    cmpZip pat l = some (decide (pat = l.take pat.length)) := by
  induction pat with
  | nil => intro l _; simp [cmpZip]
  | cons c rest ih =>
    intro l hle
    cases l with
    | nil => simp at hle
    | cons b hs =>
      simp only [cmpZip]
      by_cases hcb : c = b
      · subst hcb
        rw [if_pos rfl, ih hs (by simpa using hle)]
        simp [List.take_succ_cons]
      · rw [if_neg hcb]
        simp [List.take_succ_cons, hcb]

theorem cmpBody_eq (h pre suf : List Nat) (hle : pre.length + suf.length ≤ h.length) :
    cmpBody h pre suf =
      some (decide (pre = h.take pre.length ∧ suf = h.drop (h.length - suf.length))) := by
  unfold cmpBody
  rw [if_neg (by omega)]
  rw [cmpLoop_eq_zip, List.drop_zero, cmpZip_eq pre h (by omega)]
  by_cases hP : pre = h.take pre.length
  · rw [decide_eq_true hP]
    have hlen : (h.drop (h.length - suf.length)).length = suf.length := by
      rw [List.length_drop]; omega
    show cmpLoop suf h (h.length - suf.length) = _
    rw [cmpLoop_eq_zip, cmpZip_eq suf (h.drop (h.length - suf.length)) (by omega)]
    rw [List.take_of_length_le (by omega)]
    exact congrArg some (decide_eq_decide.mpr (and_iff_right hP).symm)
  · rw [decide_eq_false hP]
    exact congrArg some (decide_eq_false fun hpq => hP hpq.1).symm

theorem cmpBody_cons2 (h p s : List Nat) (c d : Nat) :
    cmpBody (c :: d :: h) (c :: d :: p) s = cmpBody h p s := by
  by_cases hlen : h.length < p.length + s.length
  · unfold cmpBody
    rw [if_pos (by simp; omega), if_pos hlen]
  · have hle : p.length + s.length ≤ h.length := by omega
    have hs : s.length ≤ h.length := by omega
    rw [cmpBody_eq _ _ _ (by simp; omega), cmpBody_eq _ _ _ hle]
    refine congrArg some (decide_eq_decide.mpr ?_)
    have harith : (c :: d :: h).length - s.length = (h.length - s.length) + 2 := by
      simp; omega
    rw [harith]
    simp [List.take_succ_cons, List.drop_succ_cons]

theorem scanHex_none (s : List Nat) : scanHex s = none ↔ ∀ c ∈ s, isHexByte c = true := by
  induction s with
  | nil => simp [scanHex]
  | cons r rest ih =>
    by_cases hr : isHexByte r = true
    · simp [scanHex, hr, ih]
    · simp [scanHex, hr]

theorem scanHex_cases (s : List Nat) :
    scanHex s = none ∨ scanHex s = some ValidationError.errInvalid := by
  induction s with
  | nil => exact Or.inl rfl
  | cons r rest ih =>
    by_cases hr : isHexByte r = true
    · simpa [scanHex, hr] using ih
    · simp [scanHex, hr]

theorem fastRandCursor_inv (cap : Nat) (hcap : 32 ≤ cap) :
    ∀ k, fastRandCursor cap k = cap ∨
      (1 ≤ fastRandCursor cap k ∧ fastRandCursor cap k + 31 ≤ cap) := by
  intro k
  induction k with
  | zero => exact Or.inl rfl
  | succ n ih =>
    right
    rw [fastRandCursor]
    rcases ih with h | ⟨h1, h2⟩
    · rw [h]
      unfold fastRandCall
      rw [if_pos (Or.inr (by omega))]
      show 1 ≤ 1 ∧ 1 + 31 ≤ cap
      omega
    · unfold fastRandCall
      by_cases hc : fastRandCursor cap n = 0 ∨ cap - 32 < fastRandCursor cap n
      · rw [if_pos hc]
        show 1 ≤ 1 ∧ 1 + 31 ≤ cap
        omega
      · rw [if_neg hc]
        push_neg at hc
        show 1 ≤ fastRandCursor cap n + 1 ∧ fastRandCursor cap n + 1 + 31 ≤ cap
        omega

/-- C1: for every derived address and every pattern whose combined
length fits the encoded address, the matcher returns true exactly when
the encoding both starts with the pattern prefix bytes and ends with
its suffix bytes; in the case-insensitive mode the encoding is the
40-character lowercase hex of the address (main.go passes an empty
scratch buffer), in the case-sensitive mode it is the external
checksummed encoding hexF a with the 0x marker.  The result equals
some (decide (both conditions)), so satisfying only the starts-with
condition, or only the ends-with condition, yields some false. -/
theorem matcher_iff (hexF : List Nat → List Nat) (a pre suf : List Nat)
    (h1 : pre.length + suf.length ≤ (hexAppendEncode [] a).length)
    (h2 : pre.length + suf.length ≤ (hexF a).length) :
    insensitiveCmp a pre suf [] =
      some (decide (pre = (hexAppendEncode [] a).take pre.length ∧
        suf = (hexAppendEncode [] a).drop ((hexAppendEncode [] a).length - suf.length))) ∧
    sensitiveCmp hexF a pre suf =
      some (decide (pre = (hexF a).take pre.length ∧
        suf = (hexF a).drop ((hexF a).length - suf.length))) :=
  ⟨cmpBody_eq _ _ _ h1, cmpBody_eq _ _ _ h2⟩

/-- Witness for C1 at the concrete address 0xabcd, pattern prefix "a",
suffix "d", and the identity-style checksum oracle. -/
theorem matcher_iff_witness :
    insensitiveCmp [171, 205] [97] [100] [] =
      some (decide ([97] = (hexAppendEncode [] [171, 205]).take 1 ∧
        [100] = (hexAppendEncode [] [171, 205]).drop
          ((hexAppendEncode [] [171, 205]).length - 1))) ∧
    sensitiveCmp (fun l => 48 :: 120 :: hexAppendEncode [] l) [171, 205] [97] [100] =
      some (decide ([97] = ((fun l => 48 :: 120 :: hexAppendEncode [] l) [171, 205]).take 1 ∧
        [100] = ((fun l => 48 :: 120 :: hexAppendEncode [] l) [171, 205]).drop
          (((fun l => 48 :: 120 :: hexAppendEncode [] l) [171, 205]).length - 1))) :=
  matcher_iff (fun l => 48 :: 120 :: hexAppendEncode [] l) [171, 205] [97] [100]
    (by decide) (by decide)

/-- C6: for every address and every pattern, validated or not, when the
combined pattern length exceeds the length of the encoded address, both
comparison functions return some false: the initial length guard fires
before any indexing, so no out-of-bounds access (modelled by none) can
occur, in either mode. -/
theorem matcher_short_safe (hexF : List Nat → List Nat) (a pre suf buf : List Nat)
    (h1 : (hexAppendEncode buf a).length < pre.length + suf.length)
    (h2 : (hexF a).length < pre.length + suf.length) :
    insensitiveCmp a pre suf buf = some false ∧
    sensitiveCmp hexF a pre suf = some false := by
  constructor
  · unfold insensitiveCmp cmpBody
    rw [if_pos h1]
  · unfold sensitiveCmp cmpBody
    rw [if_pos h2]

/-- Witness for C6: a 2-byte address whose encoding has 4 characters, a
3-byte pattern prefix and a 2-byte pattern suffix. -/
theorem matcher_short_safe_witness :
    insensitiveCmp [171, 205] [1, 2, 3] [4, 5] [] = some false ∧
    sensitiveCmp (fun _ => []) [171, 205] [1, 2, 3] [4, 5] = some false :=
  matcher_short_safe (fun _ => []) [171, 205] [1, 2, 3] [4, 5] [] (by decide) (by decide)

/-- C8: matching in case-insensitive mode against the pre-lowercased
pattern gives the same answer as running the case-sensitive comparison
scheme on the lowercased sensitive encoding against the lowercased
sensitive pattern (marker 0x followed by the lowercased pattern
prefix).  The hypothesis states the defining property of the external
checksummed encoding: lowercasing it yields the 0x marker followed by
the plain lowercase hex encoding of the address. -/
theorem matcher_case_consistent (hexF : List Nat → List Nat) (a pre suf : List Nat)
    (hhex : (hexF a).map toLowerByte = 48 :: 120 :: hexAppendEncode [] a) :
    insensitiveCmp a (pre.map toLowerByte) (suf.map toLowerByte) [] =
      sensitiveCmp (fun l => (hexF l).map toLowerByte) a
        (48 :: 120 :: pre.map toLowerByte) (suf.map toLowerByte) := by
  unfold insensitiveCmp sensitiveCmp
  show cmpBody (hexAppendEncode [] a) _ _ = cmpBody ((hexF a).map toLowerByte) _ _
  rw [hhex]
  exact (cmpBody_cons2 (hexAppendEncode [] a) (pre.map toLowerByte) (suf.map toLowerByte)
    48 120).symm

/-- Witness for C8 at the address 0xabcd with pattern prefix "A" and an
oracle whose checksummed encoding is the lowercase one. -/
theorem matcher_case_consistent_witness :
    insensitiveCmp [171, 205] ([65].map toLowerByte) ([68].map toLowerByte) [] =
      sensitiveCmp (fun l => ((fun l2 => 48 :: 120 :: hexAppendEncode [] l2) l).map toLowerByte)
        [171, 205] (48 :: 120 :: [65].map toLowerByte) ([68].map toLowerByte) :=
  matcher_case_consistent (fun l2 => 48 :: 120 :: hexAppendEncode [] l2) [171, 205] [65] [68]
    (by decide)

theorem isValid_long (s : List Nat) (h : 32 < s.length) :
    isValidSubstring s = some ValidationError.errTooLongInvalid := by
  unfold isValidSubstring
  rw [if_pos h]

theorem isValid_scan_some (s : List Nat) (e : ValidationError) (h32 : ¬ 32 < s.length)
    (hs : scanHex s = some e) : isValidSubstring s = some e := by
  unfold isValidSubstring
  rw [if_neg h32, hs]

theorem isValid_scan_none (s : List Nat) (h32 : ¬ 32 < s.length) (hs : scanHex s = none) :
    isValidSubstring s =
      if 5 < s.length then some ValidationError.errTooLong else none := by
  unfold isValidSubstring
  rw [if_neg h32, hs]

theorem isValidSubstring_cases (s : List Nat) :
    (isValidSubstring s = some ValidationError.errTooLongInvalid ↔ 32 < s.length) ∧
    ((s.length ≤ 32 ∧ ∃ c ∈ s, isHexByte c = false) →
      isValidSubstring s = some ValidationError.errInvalid) ∧
    (isValidSubstring s = some ValidationError.errTooLong ↔
      ((∀ c ∈ s, isHexByte c = true) ∧ 5 < s.length ∧ s.length ≤ 32)) ∧
    (isValidSubstring s = none ↔ ((∀ c ∈ s, isHexByte c = true) ∧ s.length ≤ 5)) := by
  by_cases h32 : 32 < s.length
  · rw [isValid_long s h32]
    refine ⟨⟨fun _ => h32, fun _ => rfl⟩, ?_, ?_, ?_⟩
    · rintro ⟨hle, -⟩
      omega
    · exact ⟨fun h => absurd h (by decide), fun h => absurd h.2.2 (by omega)⟩
    · exact ⟨fun h => absurd h (by decide), fun h => absurd h.2 (by omega)⟩
  · rcases scanHex_cases s with hs | hs
    · have hall : ∀ c ∈ s, isHexByte c = true := (scanHex_none s).mp hs
      rw [isValid_scan_none s h32 hs]
      push_neg at h32
      by_cases h5 : 5 < s.length
      · rw [if_pos h5]
        refine ⟨⟨fun h => absurd h (by decide), fun h => absurd h (by omega)⟩, ?_, ?_, ?_⟩
        · rintro ⟨-, c, hc, hbad⟩
          rw [hall c hc] at hbad
          cases hbad
        · exact ⟨fun _ => ⟨hall, h5, h32⟩, fun _ => rfl⟩
        · exact ⟨fun h => absurd h (by decide), fun h => absurd h.2 (by omega)⟩
      · rw [if_neg h5]
        push_neg at h5
        refine ⟨⟨fun h => absurd h (by decide), fun h => absurd h (by omega)⟩, ?_, ?_, ?_⟩
        · rintro ⟨-, c, hc, hbad⟩
          rw [hall c hc] at hbad
          cases hbad
        · exact ⟨fun h => absurd h (by decide), fun h => absurd h.2.1 (by omega)⟩
        · exact ⟨fun _ => ⟨hall, h5⟩, fun _ => rfl⟩
    · have hinv : ∃ c ∈ s, isHexByte c = false := by
        by_contra hcon
        push_neg at hcon
        have hnone : scanHex s = none := (scanHex_none s).mpr (by
          intro c hc
          rcases Bool.eq_false_or_eq_true (isHexByte c) with hb | hb
          · exact hb
          · exact absurd hb (hcon c hc)
          )
        rw [hnone] at hs
        cases hs
      rw [isValid_scan_some s ValidationError.errInvalid h32 hs]
      push_neg at h32
      refine ⟨⟨fun h => absurd h (by decide), fun h => absurd h (by omega)⟩, fun _ => rfl,
        ?_, ?_⟩
      · refine ⟨fun h => absurd h (by decide), ?_⟩
        rintro ⟨hall, -, -⟩
        rcases hinv with ⟨c, hc, hbad⟩
        rw [hall c hc] at hbad
        cases hbad
      · refine ⟨fun h => absurd h (by decide), ?_⟩
        rintro ⟨hall, -⟩
        rcases hinv with ⟨c, hc, hbad⟩
        rw [hall c hc] at hbad
        cases hbad

/-- C4 counterexample: the input of 33 letters g (code 103) contains a
byte outside the hex ranges, yet validation does not return the charset
error: the length check fires first and returns errTooLongInvalid, so
the clause that any non-hex character yields InvalidCharset is false as
stated. -/
theorem validator_charset_cex :
    (∃ c ∈ List.replicate 33 103 ++ ([] : List Nat), isHexByte c = false) ∧
    isValidSubstring (List.replicate 33 103 ++ ([] : List Nat)) ≠
      some ValidationError.errInvalid := by decide

/-- C4 amended: validation returns errTooLongInvalid exactly when the
combined length exceeds 32; returns errInvalid when some character is
outside the hex ranges and the combined length is at most 32; returns
errTooLong exactly when all characters are valid hex and the combined
length is above 5 and at most 32; and succeeds exactly when all
characters are valid hex and the combined length is at most 5. -/
theorem validator_classification (pre suf : List Nat) :
    (isValidSubstring (pre ++ suf) = some ValidationError.errTooLongInvalid ↔
      32 < pre.length + suf.length) ∧
    ((pre.length + suf.length ≤ 32 ∧ ∃ c ∈ pre ++ suf, isHexByte c = false) →
      isValidSubstring (pre ++ suf) = some ValidationError.errInvalid) ∧
    (isValidSubstring (pre ++ suf) = some ValidationError.errTooLong ↔
      ((∀ c ∈ pre ++ suf, isHexByte c = true) ∧ 5 < pre.length + suf.length ∧
        pre.length + suf.length ≤ 32)) ∧
    (isValidSubstring (pre ++ suf) = none ↔
      ((∀ c ∈ pre ++ suf, isHexByte c = true) ∧ pre.length + suf.length ≤ 5)) := by
  have h := isValidSubstring_cases (pre ++ suf)
  rwa [List.length_append] at h

/-- Witness for C4 at the two-character pattern "ab": validation
succeeds. -/
theorem validator_classification_witness : isValidSubstring ([97] ++ [98]) = none :=
  (validator_classification [97] [98]).2.2.2.mpr (by decide)

/-- C5: the run aborts unconditionally on errInvalid and on
errTooLongInvalid; on errTooLong it aborts exactly when the -l override
is absent and no non-zero timeout was supplied. -/
theorem gate_policy (pre suf : List Nat) (longOk : Bool) (t : Int) :
    ((isValidSubstring (pre ++ suf) = some ValidationError.errInvalid ∨
      isValidSubstring (pre ++ suf) = some ValidationError.errTooLongInvalid) →
      validationGate pre suf longOk t = GateOutcome.abort) ∧
    (isValidSubstring (pre ++ suf) = some ValidationError.errTooLong →
      (validationGate pre suf longOk t = GateOutcome.abort ↔ (longOk = false ∧ t = 0))) := by
  constructor
  · intro h
    unfold validationGate
    rcases h with h | h <;> rw [h] <;> rfl
  · intro h
    unfold validationGate
    rw [h]
    show (if ValidationError.errTooLong ≠ ValidationError.errTooLong then GateOutcome.abort
      else if longOk = false ∧ t = 0 then GateOutcome.abort else GateOutcome.proceed) =
        GateOutcome.abort ↔ (longOk = false ∧ t = 0)
    rw [if_neg (fun hne => hne rfl)]
    by_cases hc : longOk = false ∧ t = 0
    · rw [if_pos hc]
      exact ⟨fun _ => hc, fun _ => rfl⟩
    · rw [if_neg hc]
      exact ⟨fun hpa => absurd hpa (by decide), fun hx => absurd hx hc⟩

/-- Witness for C5: the non-hex pattern "g" aborts the run. -/
theorem gate_policy_witness : validationGate [103] [] false 0 = GateOutcome.abort :=
  (gate_policy [103] [] false 0).1 (Or.inl (by decide))

/-- C2: starting from the initial cursor cap with cap at least 32,
before every 32-byte read of a successful call the read index satisfies
index + 32 ≤ cap; the call refills (resetting the read index to 0)
exactly when the saved cursor would violate cursor + 32 ≤ cap; and the
new cursor is the read index plus one, so consecutive candidates within
one buffer overlap in 31 of their 32 bytes. -/
theorem fastRand_invariant (cap k : Nat) (hcap : 32 ≤ cap) :
    (fastRandCall cap (fastRandCursor cap k)).1 + 32 ≤ cap ∧
    ((fastRandCall cap (fastRandCursor cap k)).2.1 = true ↔
      cap < fastRandCursor cap k + 32) ∧
    (fastRandCall cap (fastRandCursor cap k)).2.2 =
      (fastRandCall cap (fastRandCursor cap k)).1 + 1 := by
  rcases fastRandCursor_inv cap hcap k with h | ⟨h1, h2⟩
  · rw [h]
    unfold fastRandCall
    rw [if_pos (Or.inr (by omega))]
    show 0 + 32 ≤ cap ∧ (true = true ↔ cap < cap + 32) ∧ 1 = 0 + 1
    exact ⟨by omega, ⟨fun _ => by omega, fun _ => rfl⟩, rfl⟩
  · unfold fastRandCall
    by_cases hc : fastRandCursor cap k = 0 ∨ cap - 32 < fastRandCursor cap k
    · rw [if_pos hc]
      show 0 + 32 ≤ cap ∧ (true = true ↔ cap < fastRandCursor cap k + 32) ∧ 1 = 0 + 1
      refine ⟨by omega, ⟨fun _ => ?_, fun _ => rfl⟩, rfl⟩
      rcases hc with hc | hc <;> omega
    · rw [if_neg hc]
      push_neg at hc
      show fastRandCursor cap k + 32 ≤ cap ∧
        (false = true ↔ cap < fastRandCursor cap k + 32) ∧
        fastRandCursor cap k + 1 = fastRandCursor cap k + 1
      refine ⟨by omega, ⟨fun hft => absurd hft (by decide), fun hlt => absurd hlt (by omega)⟩,
        rfl⟩

/-- Witness for C2 with the 4 KiB buffer after five calls. -/
theorem fastRand_invariant_witness :
    (fastRandCall 4096 (fastRandCursor 4096 5)).1 + 32 ≤ 4096 ∧
    ((fastRandCall 4096 (fastRandCursor 4096 5)).2.1 = true ↔
      4096 < fastRandCursor 4096 5 + 32) ∧
    (fastRandCall 4096 (fastRandCursor 4096 5)).2.2 =
      (fastRandCall 4096 (fastRandCursor 4096 5)).1 + 1 :=
  fastRand_invariant 4096 5 (by decide)

/-- C10: when a refill is needed and the secure read fails, the call
returns the error without producing a read index and leaves the cursor
at 0; any later call from cursor 0 takes the refill branch again, so it
either fails the same way or reads the freshly refilled buffer from
index 0.  Bytes of a buffer whose refill failed are therefore never
returned. -/
theorem fastRand_refill_failure (cap n : Nat) (hneed : n = 0 ∨ cap - 32 < n) :
    fastRandCallE cap n false = (none, 0) ∧
    fastRandCallE cap 0 false = (none, 0) ∧
    fastRandCallE cap 0 true = (some 0, 1) := by
  refine ⟨?_, ?_, ?_⟩
  · unfold fastRandCallE
    rw [if_pos hneed]
    rfl
  · unfold fastRandCallE
    rw [if_pos (Or.inl rfl)]
    rfl
  · unfold fastRandCallE
    rw [if_pos (Or.inl rfl)]
    rfl

/-- Witness for C10 at the 4 KiB capacity with the initial cursor. -/
theorem fastRand_refill_failure_witness :
    fastRandCallE 4096 4096 false = (none, 0) ∧
    fastRandCallE 4096 0 false = (none, 0) ∧
    fastRandCallE 4096 0 true = (some 0, 1) :=
  fastRand_refill_failure 4096 4096 (Or.inr (by decide))

/-- C7 counterexample: with an empty prefix and the six-character
suffix "abcdef" the combined pattern length is above 5, yet the fast
strategy allocates the 4 KiB buffer, not 1 MiB; and with the short
prefix "a" and a 30-second timeout (a time-bounded run) it also
allocates 4 KiB.  The capacity choice reads only the prefix length. -/
theorem buffer_size_cex :
    (5 < ([] : List Nat).length + ([97, 98, 99, 100, 101, 102] : List Nat).length ∧
      workerKeyStrategy true [] [97, 98, 99, 100, 101, 102] 0 ≠
        KeyStrategy.buffered (1 <<< 20)) ∧
    workerKeyStrategy true [97] [] 30 ≠ KeyStrategy.buffered (1 <<< 20) := by decide

/-- C7 amended: under the fast flag the buffer capacity is 1 MiB exactly
when the prefix alone is longer than 5 characters and 4 KiB exactly
otherwise, independent of the suffix and of the timeout; without the
fast flag the secure generator is used. -/
theorem buffer_size_amended (pre suf : List Nat) (t : Int) :
    (workerKeyStrategy true pre suf t = KeyStrategy.buffered (1 <<< 20) ↔ 5 < pre.length) ∧
    (workerKeyStrategy true pre suf t = KeyStrategy.buffered (4 <<< 10) ↔ pre.length ≤ 5) ∧
    workerKeyStrategy false pre suf t = KeyStrategy.secure := by
  refine ⟨?_, ?_, rfl⟩
  · unfold workerKeyStrategy
    by_cases h5 : 5 < pre.length
    · rw [if_neg (by decide), if_pos h5]
      exact ⟨fun _ => h5, fun _ => rfl⟩
    · rw [if_neg (by decide), if_neg h5]
      exact ⟨fun h => absurd h (by decide), fun h => absurd h h5⟩
  · unfold workerKeyStrategy
    by_cases h5 : 5 < pre.length
    · rw [if_neg (by decide), if_pos h5]
      exact ⟨fun h => absurd h (by decide), fun h => absurd h (by omega)⟩
    · rw [if_neg (by decide), if_neg h5]
      exact ⟨fun _ => by omega, fun _ => rfl⟩

/-- C3: the claim requires a failed key derivation to be treated as a
rejected candidate with the loop continuing, but the embedded worker
iteration terminates the whole process on a derivation error, for every
possible match outcome; it never continues the loop.  This records the
divergence the spec itself flags as a design defect of the source. -/
theorem worker_derive_failure_fatal :
    (∀ m : Bool, workerLoopIter KeyOutcome.keyErr m = WorkerAction.fatalExit) ∧
    (∀ m : Bool, workerLoopIter KeyOutcome.keyErr m ≠ WorkerAction.continueLoop) :=
  ⟨fun _ => rfl, fun _ h => by cases h⟩

/-- C9: when the deadline fires first, the coordinator ends with the
timeout failure, an outcome distinct from the committed and the
persist-failure outcomes, and the persistence step is not invoked; the
persistence step is invoked only when a worker result wins the race. -/
theorem coordinate_timeout (persistOk : Bool) :
    coordinate RaceEvent.deadlineFired persistOk = (CoordOutcome.timedOutFailure, false) ∧
    (∀ ev : RaceEvent, (coordinate ev persistOk).2 = true →
      ∃ pk addr, ev = RaceEvent.workerResult pk addr) ∧
    (∀ pk addr, CoordOutcome.timedOutFailure ≠ CoordOutcome.committed pk addr) ∧
    (∀ addr, CoordOutcome.timedOutFailure ≠ CoordOutcome.persistFailed addr) := by
  refine ⟨rfl, ?_, ?_, ?_⟩
  · intro ev h
    cases ev with
    | workerResult pk addr => exact ⟨pk, addr, rfl⟩
    | deadlineFired => exact absurd h Bool.false_ne_true
  · intro pk addr h
    cases h
  · intro addr h
    cases h

/-- Witness for C9: with a successful persistence oracle the deadline
branch still commits nothing. -/
theorem coordinate_timeout_witness :
    coordinate RaceEvent.deadlineFired true = (CoordOutcome.timedOutFailure, false) :=
  (coordinate_timeout true).1

/-- Witness for the amended C7: a six-character prefix selects the
1 MiB buffer. -/
theorem buffer_size_amended_witness :
    workerKeyStrategy true [97, 98, 99, 100, 101, 102] [] 0 = KeyStrategy.buffered (1 <<< 20) :=
  (buffer_size_amended [97, 98, 99, 100, 101, 102] [] 0).1.mpr (by decide)
